/-
Verification of the RAG support pipeline of the ai-assistant repository
(rag-service): embedding cache (app/core/cache.py), embedding client
(app/services/embedding.py), text chunker (app/core/rag/chunking.py),
query rewriter (app/core/rag/query_rewrite.py) and vector retriever
(app/core/rag/retrieval.py).

The Python code is shallowly embedded: every stateful object becomes an
explicit state value threaded through the operations, Python `float`
vector components and similarity scores become exact rationals (no
floating-point arithmetic is performed on any path modelled here: the
scores are only compared, copied, or set to literal constants), and every
fallible remote call becomes an explicit oracle returning `Except`.
-/
import Mathlib

set_option maxHeartbeats 1000000

namespace RagService

/-! ## Configuration defaults (app/core/config.py, class Settings) -/

/-- Setting `BATCH_SIZE: int = 50`. -/
def BATCH_SIZE : Nat := 50

/-- Setting `CACHE_MAX_SIZE: int = 1000`. -/
def CACHE_MAX_SIZE : Nat := 1000

/-- Setting `CACHE_TTL_SECONDS: int = 3600`. -/
def CACHE_TTL_SECONDS : Int := 3600

/-- Setting `RETRIEVAL_TOP_K: int = 5`. -/
def RETRIEVAL_TOP_K : Nat := 5

/-- Setting `SIMILARITY_THRESHOLD: float = 0.6`. -/
def SIMILARITY_THRESHOLD : ℚ := 3/5

/-- Setting `EMBEDDING_MODEL: str = "baai/bge-m3"`. -/
def EMBEDDING_MODEL : String := "baai/bge-m3"

/-! ## Python string primitives

Python `str.strip()` (with no argument) removes leading and trailing
whitespace, and `kw in s` is substring containment.  Both are modelled
structurally over the character list of the string; whitespace is the
ASCII whitespace set (the only whitespace occurring in the code and the
claims). -/

/-- ASCII whitespace, as stripped by Python `str.strip()`. -/
def isPySpace (c : Char) : Bool :=
  c == ' ' || c == '\t' || c == '\n' || c == '\x0b' || c == '\x0c' || c == '\r'

/-- Python `s.strip()`. -/
def py_strip (s : String) : String :=
  String.mk (((s.data.dropWhile isPySpace).reverse.dropWhile isPySpace).reverse)

/-- Does `s` start with `pat`? -/
def chars_begin_with : List Char → List Char → Bool
  | _, [] => true
  | [], _ :: _ => false
  | c :: cs, p :: ps => c == p && chars_begin_with cs ps

/-- Does `pat` occur inside `s`? -/
def chars_contain : List Char → List Char → Bool
  | [], pat => pat.isEmpty
  | c :: rest, pat => chars_begin_with (c :: rest) pat || chars_contain rest pat

/-! ## Association-list primitives

`MemoryCache` stores an `OrderedDict` (`self._cache`) and a plain dict
(`self._timestamps`).  Both are modelled as association lists; the
`OrderedDict` order (head = oldest, least-recently-used end) is the list
order.  On every reachable state the keys of each list are pairwise
distinct, exactly as in a Python dict. -/

/-- First value bound to key `k`, like `d[k]` / `d.get(k)`. -/
def assocGet {α β : Type} [DecidableEq α] (k : α) : List (α × β) → Option β
  | [] => none
  | (k1, v) :: rest => if k1 = k then some v else assocGet k rest

/-- Remove the binding of `k` (Python `del d[k]`). -/
def assocErase {α β : Type} [DecidableEq α] (k : α) : List (α × β) → List (α × β)
  | [] => []
  | (k1, v) :: rest => if k1 = k then rest else (k1, v) :: assocErase k rest

/-- Python `d[k] = v`: update in place when `k` is bound (a Python dict keeps the
key position), append at the most-recent end otherwise. -/
def assocSet {α β : Type} [DecidableEq α] (k : α) (v : β) : List (α × β) → List (α × β)
  | [] => [(k, v)]
  | (k1, v1) :: rest => if k1 = k then (k1, v) :: rest else (k1, v1) :: assocSet k v rest

/-! ## Embedding cache (app/core/cache.py, class MemoryCache) -/

/-- Cache key.  The source builds the string key
`"emb:" ++ model ++ ":" ++ md5(text)`; since the hexadecimal digest has a
fixed length, that string is an injective encoding of the pair
`(model, md5 text)`.  The MD5 content hash (Python stdlib, outside this
repository) is represented by the text itself, matching the spec, which
treats the key as derived deterministically from `(model_id, content_hash)`. -/
def generate_key (text model : String) : String × String := (model, text)

/-- State of one `MemoryCache` instance: `max_size`, `ttl_seconds`,
`_cache` (OrderedDict, head = oldest position) and `_timestamps`. -/
structure CacheState where
  max_size : Nat
  ttl_seconds : Int
  cache : List ((String × String) × List ℚ)
  timestamps : List ((String × String) × Int)
  deriving DecidableEq, Repr

/-- Constructor `MemoryCache.__init__` with an empty store. -/
def MemoryCache.init (max_size : Nat) (ttl_seconds : Int) : CacheState :=
  { max_size := max_size, ttl_seconds := ttl_seconds, cache := [], timestamps := [] }

/-- Method `MemoryCache.get(text, model)` at clock value `now` (`time.time()`).
Returns the optional vector and the successor state: an expired entry is
purged lazily, a hit is moved to the most-recently-used end. -/
def MemoryCache.get (s : CacheState) (text model : String) (now : Int) :
    Option (List ℚ) × CacheState :=
  let key := generate_key text model
  match assocGet key s.cache with
  | none => (none, s)
  | some v =>
    let timestamp := (assocGet key s.timestamps).getD 0
    if s.ttl_seconds < now - timestamp then
      (none, { s with cache := assocErase key s.cache,
                      timestamps := assocErase key s.timestamps })
    else
      (some v, { s with cache := assocErase key s.cache ++ [(key, v)] })

/-- The `_cache` after the capacity check of `set`: when
`len(self._cache) >= self.max_size` the head (oldest position) is
dropped. -/
def evictOldestCache (max_size : Nat) (c : List ((String × String) × List ℚ)) :
    List ((String × String) × List ℚ) :=
  if max_size ≤ c.length then c.tail else c

/-- The `_timestamps` after the capacity check of `set`: the evicted oldest
key is deleted from the timestamp dict as well. -/
def evictOldestTimestamps (max_size : Nat) (c : List ((String × String) × List ℚ))
    (t : List ((String × String) × Int)) : List ((String × String) × Int) :=
  if max_size ≤ c.length then
    match c with
    | [] => t
    | (oldest_key, _) :: _ => assocErase oldest_key t
  else t

/-- Method `MemoryCache.set(text, model, embedding)` at clock value `now`: when
`len(self._cache) >= self.max_size` the entry at the head (oldest
position) is evicted first, then the new binding is written and its
timestamp recorded.  (With `max_size = 0` and an empty store the Python
code would raise `StopIteration` on `next(iter(self._cache))`; that state
is unreachable for any `max_size ≥ 1` and the claims assume capacity of
at least one.) -/
def MemoryCache.set (s : CacheState) (text model : String) (embedding : List ℚ)
    (now : Int) : CacheState :=
  let key := generate_key text model
  { s with cache := assocSet key embedding (evictOldestCache s.max_size s.cache),
           timestamps := assocSet key now
             (evictOldestTimestamps s.max_size s.cache s.timestamps) }

/-- Method `MemoryCache.clear()`. -/
def MemoryCache.clear (s : CacheState) : Nat × CacheState :=
  (s.cache.length, { s with cache := [], timestamps := [] })

/-- One item of the over-capacity insertion scenario: `((text, model), vector)`. -/
abbrev CacheItem := (String × String) × List ℚ

/-- The cache key an item is stored under. -/
def itemKey (it : CacheItem) : String × String := generate_key it.1.1 it.1.2

/-- Insert the items in order by successive `set` calls, all at one clock
value (the scenario of §8 of the spec: N+1 distinct keys, no intervening
`get`s). -/
def insert_all (s : CacheState) (items : List CacheItem) (now : Int) : CacheState :=
  items.foldl (fun st it => MemoryCache.set st it.1.1 it.1.2 it.2 now) s

/-! ## Text chunker (app/core/rag/chunking.py, class TextChunker) -/

/-- Chunk metadata: the fields the chunker writes (`page_number`,
`source`).  The free-form remainder of the metadata dict is never read
by the code under verification and is not modelled. -/
structure ChunkMetadata where
  page_number : Option Nat
  source : Option String
  deriving DecidableEq, Repr

/-- One produced chunk dict. -/
structure Chunk where
  chunk_index : Nat
  content : String
  char_count : Nat
  metadata : ChunkMetadata
  deriving DecidableEq, Repr

/-- One element of `page_texts`: `{"page": ..., "text": ...}` (both keys
read with `.get`, hence optional). -/
structure PageText where
  page : Option Nat
  text : Option String
  deriving DecidableEq, Repr

/-- Method `TextChunker.chunk_text(text, metadata)`.  The raw splitting is
delegated to the LangChain `RecursiveCharacterTextSplitter`, a library
outside this repository, passed here as the function `split`.  The rest
is from the source: the blank-input guard returns `[]`, and the produced
chunks are enumerated from 0 within this one call. -/
def chunk_text (split : String → List String) (text : String)
    (metadata : ChunkMetadata) : List Chunk :=
  if py_strip text = "" then []
  else (split text).enum.map fun p =>
    { chunk_index := p.1, content := p.2, char_count := p.2.length,
      metadata := metadata }

/-- Method `TextChunker.chunk_by_pages(page_texts)`: skip whitespace-only pages,
chunk each remaining page with `{"page_number": page, "source": "pdf"}`
metadata, and concatenate the per-page chunk lists. -/
def chunk_by_pages (split : String → List String) (page_texts : List PageText) :
    List Chunk :=
  page_texts.foldl
    (fun all_chunks page_data =>
      let page_num := page_data.page.getD 0
      let text := page_data.text.getD ""
      if py_strip text = "" then all_chunks
      else all_chunks ++
        chunk_text split text { page_number := some page_num, source := some "pdf" })
    []

/-- Modelled from the spec: `RecursiveCharacterTextSplitter` (LangChain)
is not part of this repository.  Spec §4.1: only "a span exceeding the
configured maximum size" is split further, so a text within the maximum
size (`CHUNK_SIZE = 1000` characters) is emitted unchanged as the single
chunk.  The claims below evaluate the splitter only on such short texts,
where it is this one-chunk splitter. -/
def split_within_size : String → List String := fun text => [text]

/-! ## Query rewriter (app/core/rag/query_rewrite.py, class QueryRewriter) -/

/-- The result dict built by `QueryRewriter.rewrite`.  `error := true`
records that the outer exception handler stored an `"error"` entry. -/
structure QueryRewriteResult where
  original_query : String
  normalized_query : Option String
  final_query : String
  query_type : String
  sub_queries : Option String
  steps : List String
  error : Bool
  deriving DecidableEq, Repr

/-- The fixed compound-question keyword list in `QueryRewriter.rewrite`:
`["和", "与", "或者", "以及", "区别", "对比", "比较"]`. -/
def compound_keywords : List String := ["和", "与", "或者", "以及", "区别", "对比", "比较"]

/-- Python `kw in s` (substring containment). -/
def strContains (s kw : String) : Bool := chars_contain s.data kw.data

/-- Python `any(kw in query_for_analysis for kw in [...])`. -/
def is_compound (query_for_analysis : String) : Bool :=
  compound_keywords.any (strContains query_for_analysis)

/-- Python `" ".join(decomposed.split("\n")).replace("1.", "").replace("2.", "").replace("3.", "")`. -/
def join_sub_queries (decomposed : String) : String :=
  (((String.intercalate " " (decomposed.splitOn "\n")).replace "1." "").replace
    "2." "").replace "3." ""

/-- Method `QueryRewriter._call_llm(prompt)`: the whole HTTP call and response
parsing run inside `try ... except Exception: return ""`, so an LLM
failure surfaces to the callers as the empty string; a normal response
is `content.strip()`. -/
def call_llm (http : String → Except Unit String) (prompt : String) : String :=
  match http prompt with
  | .ok content => py_strip content
  | .error _ => ""

/-- The body of the outer `except Exception` handler of `rewrite`, applied to
the result dict as it stood when the exception was raised: it sets
`query_type = "fallback"`, stores the error and appends the failure
step — it does not write `final_query`. -/
def rewrite_handler (r : QueryRewriteResult) : QueryRewriteResult :=
  { r with query_type := "fallback", error := true,
           steps := r.steps ++ ["查询重写失败"] }

/-- Method `QueryRewriter.rewrite(query)`.  The three helper coroutines
`_normalize_query` / `_decompose_query` / `_expand_query` are passed as
oracles returning `Except`: `.ok s` is a normal return (the helpers
themselves catch LLM failures and return `""`), `.error` is an unhandled
exception escaping the helper call, which lands in the outer handler. -/
def rewrite (normalize decompose expand : String → Except Unit String)
    (enabled : Bool) (query : String) : QueryRewriteResult :=
  let result0 : QueryRewriteResult :=
    { original_query := query, normalized_query := none, final_query := query,
      query_type := "original", sub_queries := none, steps := [], error := false }
  if !enabled then result0
  else
    match normalize query with
    | .error _ => rewrite_handler result0
    | .ok normalized =>
      let result1 :=
        if normalized ≠ "" then
          { result0 with normalized_query := some normalized,
                         final_query := normalized,
                         steps := result0.steps ++ ["标准化完成"] }
        else { result0 with steps := result0.steps ++ ["标准化失败"] }
      let query_for_analysis := result1.final_query
      if is_compound query_for_analysis then
        let result2 := { result1 with query_type := "decomposition",
                                      steps := result1.steps ++ ["使用查询分解"] }
        match decompose query_for_analysis with
        | .error _ => rewrite_handler result2
        | .ok decomposed =>
          if decomposed ≠ "" then
            { result2 with sub_queries := some decomposed,
                           final_query := join_sub_queries decomposed }
          else { result2 with steps := result2.steps ++ ["查询分解失败"] }
      else
        let result2 := { result1 with query_type := "expansion",
                                      steps := result1.steps ++ ["使用查询扩展"] }
        match expand query_for_analysis with
        | .error _ => rewrite_handler result2
        | .ok expanded =>
          if expanded ≠ "" then { result2 with final_query := expanded }
          else { result2 with steps := result2.steps ++ ["查询扩展失败"] }

/-! ## Vector retriever (app/core/rag/retrieval.py, class VectorRetriever) -/

/-- One row of `document_chunks` joined with `pdfs` (the columns the
retriever selects).  `has_embedding` models `embedding IS NOT NULL`; the
embedding vector itself lives in `pgvector`, outside this repository,
and enters only through a similarity function on rows.  The opaque
`metadata` JSON column is passed through unchanged by the source and is
not modelled. -/
structure ChunkRow where
  id : Nat
  pdf_id : String
  chunk_index : Nat
  content : String
  page_number : Nat
  token_count : Nat
  pdf_name : String
  has_embedding : Bool
  deriving DecidableEq, Repr

/-- One formatted retrieval result dict. -/
structure RetrievalResult where
  id : Nat
  pdf_id : String
  pdf_name : String
  chunk_index : Nat
  content : String
  page_number : Nat
  token_count : Nat
  similarity : ℚ
  deriving DecidableEq, Repr

/-- Python `x or default` for the optional `top_k` argument of `search`:
`None` and `0` are both falsy. -/
def pyOrNat (x : Option Nat) (default : Nat) : Nat :=
  match x with
  | none => default
  | some n => if n = 0 then default else n

/-- Python `x or default` for the optional `threshold` argument of
`search`: `None` and `0.0` are both falsy. -/
def pyOrRat (x : Option ℚ) (default : ℚ) : ℚ :=
  match x with
  | none => default
  | some q => if q = 0 then default else q

/-- Insert into a list sorted by decreasing similarity. -/
def insertBySimDesc (sim : ChunkRow → ℚ) (r : ChunkRow) :
    List ChunkRow → List ChunkRow
  | [] => [r]
  | r1 :: rest =>
    if sim r1 ≤ sim r then r :: r1 :: rest else r1 :: insertBySimDesc sim r rest

/-- SQL `ORDER BY dc.embedding <=> vec`: cosine distance ascending, i.e.
similarity descending (stable insertion sort; SQL leaves tie order
unspecified and no claim depends on it). -/
def sortBySimDesc (sim : ChunkRow → ℚ) : List ChunkRow → List ChunkRow
  | [] => []
  | r :: rest => insertBySimDesc sim r (sortBySimDesc sim rest)

/-- Insert into a list sorted by increasing chunk index. -/
def insertByChunkIndex (r : ChunkRow) : List ChunkRow → List ChunkRow
  | [] => [r]
  | r1 :: rest =>
    if r.chunk_index ≤ r1.chunk_index then r :: r1 :: rest
    else r1 :: insertByChunkIndex r rest

/-- SQL `ORDER BY chunk_index` (stable insertion sort). -/
def sortByChunkIndex : List ChunkRow → List ChunkRow
  | [] => []
  | r :: rest => insertByChunkIndex r (sortByChunkIndex rest)

/-- The optional `AND p.id = :pdf_id` clause of the SQL in `search`. -/
def pdf_filter (pdf_id : Option String) (r : ChunkRow) : Bool :=
  match pdf_id with
  | some p => r.pdf_id == p
  | none => true

/-- Method `VectorRetriever.search(query, pdf_id, top_k, threshold)` over the
chunk store `db`.  The query text enters only through `sim`, the cosine
similarity `1 - (embedding <=> query_vector)` of each stored row with
the embedded query. -/
def search (sim : ChunkRow → ℚ) (db : List ChunkRow) (pdf_id : Option String)
    (top_k : Option Nat) (threshold : Option ℚ) : List RetrievalResult :=
  let top_k := pyOrNat top_k RETRIEVAL_TOP_K
  let threshold := pyOrRat threshold SIMILARITY_THRESHOLD
  let rows := db.filter fun r => r.has_embedding && pdf_filter pdf_id r
  let rows := rows.filter fun r => threshold ≤ sim r
  let rows := sortBySimDesc sim rows
  (rows.take top_k).map fun r =>
    { id := r.id, pdf_id := r.pdf_id, pdf_name := r.pdf_name,
      chunk_index := r.chunk_index, content := r.content,
      page_number := r.page_number, token_count := r.token_count,
      similarity := sim r }

/-- The `pdf_record` dict: the fields `smart_retrieval` reads with `.get`. -/
structure PdfRecord where
  total_chunks : Option Nat
  totalChunks : Option Nat
  name : Option String
  deriving DecidableEq, Repr

/-- Python `pdf_record.get("total_chunks") or pdf_record.get("totalChunks", 0)`
(Python `or`: `None` and `0` are falsy). -/
def record_total_chunks (rec : PdfRecord) : Nat :=
  match rec.total_chunks with
  | some n => if n = 0 then rec.totalChunks.getD 0 else n
  | none => rec.totalChunks.getD 0

/-- The tier-3/4 SQL `SELECT ... WHERE pdf_id = :pdf_id ORDER BY
chunk_index` (before the `LIMIT`). -/
def chunks_by_index (db : List ChunkRow) (pdf_id : String) : List ChunkRow :=
  sortByChunkIndex (db.filter fun r => r.pdf_id == pdf_id)

/-- A tier-3/4 result row: `similarity` is stamped `0.0` and `pdf_name`
comes from `pdf_record.get("name", "")`. -/
def fallback_result (rec : PdfRecord) (r : ChunkRow) : RetrievalResult :=
  { id := r.id, pdf_id := r.pdf_id, pdf_name := rec.name.getD "",
    chunk_index := r.chunk_index, content := r.content,
    page_number := r.page_number, token_count := r.token_count,
    similarity := 0 }

/-- The tier-3 sampling loop: take every `step`-th row (by enumeration
position `i`), breaking once 10 results have been collected. -/
def sample_rows (rec : PdfRecord) (step : Nat) :
    List ChunkRow → Nat → List RetrievalResult → List RetrievalResult
  | [], _, sampled => sampled
  | r :: rest, i, sampled =>
    if i % step = 0 then
      if 10 ≤ (sampled ++ [fallback_result rec r]).length then
        sampled ++ [fallback_result rec r]
      else sample_rows rec step rest (i + 1) (sampled ++ [fallback_result rec r])
    else sample_rows rec step rest (i + 1) sampled

/-- Index-level mirror of `sample_rows` (the same control flow, carried
out on the chunk indices alone); used to state which rows the tier-3
loop samples. -/
def sample_idx (step : Nat) : List Nat → Nat → List Nat → List Nat
  | [], _, acc => acc
  | n :: rest, i, acc =>
    if i % step = 0 then
      if 10 ≤ (acc ++ [n]).length then acc ++ [n]
      else sample_idx step rest (i + 1) (acc ++ [n])
    else sample_idx step rest (i + 1) acc

/-- Method `VectorRetriever.smart_retrieval(query, pdf_id, pdf_record)`: the
four escalating tiers — threshold 0.6 / top-5, threshold 0.4 / top-8,
uniform sampling with `step = max(1, total_chunks // 10)` over the first
100 rows by chunk index, and finally the first 10 rows by chunk index. -/
def smart_retrieval (sim : ChunkRow → ℚ) (db : List ChunkRow) (pdf_id : String)
    (pdf_record : PdfRecord) : List RetrievalResult :=
  let chunks1 := search sim db (some pdf_id) (some 5) (some (3/5))
  if 3 ≤ chunks1.length then chunks1
  else
    let chunks2 := search sim db (some pdf_id) (some 8) (some (2/5))
    if 3 ≤ chunks2.length then chunks2
    else
      let total_chunks := record_total_chunks pdf_record
      let step := max 1 (total_chunks / 10)
      let rows := (chunks_by_index db pdf_id).take 100
      let sampled := sample_rows pdf_record step rows 0 []
      if sampled ≠ [] then sampled
      else
        let rows10 := (chunks_by_index db pdf_id).take 10
        rows10.map (fallback_result pdf_record)

/-! ## Embedding client (app/services/embedding.py, class EmbeddingService) -/

/-- The remote OpenRouter endpoint as oracles.  `batch_api` is one POST
of `/embeddings` with a list input as issued by `embed_batch` (vectors
in input order plus `usage.total_tokens`); `single_api` is the POST
issued by `embed_single`.  `.error` is any raised exception: HTTP status
error, network error, or malformed payload. -/
structure EmbeddingApi where
  batch_api : List String → Except Unit (List (List ℚ) × Nat)
  single_api : String → Except Unit (List ℚ)

/-- Python `[0.0] * 1024`: the vector substituted for an item whose batch call
and single-item retry both failed (1024 is the embedding dimensionality
of the configured `baai/bge-m3` model). -/
def zero_vector : List ℚ := List.replicate 1024 0

/-- Method `EmbeddingService.embed_single(text, model)`: blank input raises
`ValueError`; otherwise the cache is consulted first, and on a miss the
remote vector is fetched and written back.  The `Except` result carries
a raised `ValueError` to the caller. -/
def embed_single (api : EmbeddingApi) (model : String) (now : Int)
    (cache : Option CacheState) (text : String) :
    Except Unit (List ℚ) × Option CacheState :=
  if py_strip text = "" then (.error (), cache)
  else
    match cache with
    | some cs =>
      match MemoryCache.get cs text model now with
      | (some v, cs1) => (.ok v, some cs1)
      | (none, cs1) =>
        match api.single_api text with
        | .ok emb => (.ok emb, some (MemoryCache.set cs1 text model emb now))
        | .error _ => (.error (), some cs1)
    | none =>
      match api.single_api text with
      | .ok emb => (.ok emb, none)
      | .error _ => (.error (), none)

/-- Python `enumerate(batch)` shifted by the base index `batch_idx` of the batch. -/
def enumFromIdx (start : Nat) : List String → List (Nat × String)
  | [] => []
  | t :: rest => (start, t) :: enumFromIdx (start + 1) rest

/-- The per-batch cache pass of `embed_batch` (step 3): hits are
collected in scan order into `batch_results`, misses into
`uncached_texts`/`uncached_indices`; the hit and miss counters advance,
and the cache state is threaded (a hit mutates the LRU order, a miss may
lazily purge an expired entry). -/
def scan_cache (model : String) (now : Int) :
    List (Nat × String) → Option CacheState →
    List (Nat × List ℚ) × List (String × Nat) × Nat × Nat × Option CacheState
  | [], cache => ([], [], 0, 0, cache)
  | (idx, text) :: rest, cache =>
    match cache with
    | some cs =>
      match MemoryCache.get cs text model now with
      | (some v, cs1) =>
        let s := scan_cache model now rest (some cs1)
        ((idx, v) :: s.1, s.2.1, s.2.2.1 + 1, s.2.2.2.1, s.2.2.2.2)
      | (none, cs1) =>
        let s := scan_cache model now rest (some cs1)
        (s.1, (text, idx) :: s.2.1, s.2.2.1, s.2.2.2.1 + 1, s.2.2.2.2)
    | none =>
      let s := scan_cache model now rest none
      (s.1, (text, idx) :: s.2.1, s.2.2.1, s.2.2.2.1 + 1, s.2.2.2.2)

/-- The per-item retry loop of `embed_batch` (step 5), run when the
batch call failed: each miss is re-embedded via `embed_single`; an item
that fails again becomes `zero_vector` instead of aborting the batch. -/
def retry_each (api : EmbeddingApi) (model : String) (now : Int) :
    List (String × Nat) → Option CacheState →
    List (Nat × List ℚ) × Option CacheState
  | [], cache => ([], cache)
  | (text, idx) :: rest, cache =>
    let r1 := embed_single api model now cache text
    let entry :=
      match r1.1 with
      | .ok emb => (idx, emb)
      | .error _ => (idx, zero_vector)
    let r2 := retry_each api model now rest r1.2
    (entry :: r2.1, r2.2)

/-- Write the batch-call vectors back to the cache, in input order
(`self.cache.set(text, model, embedding)` inside the zip loop). -/
def write_back (model : String) (now : Int) :
    List (String × List ℚ) → Option CacheState → Option CacheState
  | [], cache => cache
  | (text, emb) :: rest, cache =>
    match cache with
    | some cs => write_back model now rest (some (MemoryCache.set cs text model emb now))
    | none => write_back model now rest none

/-- Steps 4–5 of `embed_batch` for one batch: one batched POST of the
miss set; the response must contain exactly one vector per requested
input (`len(data["data"]) == len(uncached_texts)`), otherwise — or on a
raised error — the per-item retry loop runs.  Returns the new
`(index, vector)` pairs, the tokens consumed, and the cache. -/
def process_uncached (api : EmbeddingApi) (model : String) (now : Int)
    (uncached : List (String × Nat)) (cache : Option CacheState) :
    List (Nat × List ℚ) × Nat × Option CacheState :=
  match uncached with
  | [] => ([], 0, cache)
  | _ :: _ =>
    match api.batch_api (uncached.map Prod.fst) with
    | .ok (embs, tok) =>
      if embs.length = uncached.length then
        ((uncached.zip embs).map fun p => (p.1.2, p.2),
         tok,
         write_back model now ((uncached.map Prod.fst).zip embs) cache)
      else
        let r := retry_each api model now uncached cache
        (r.1, 0, r.2)
    | .error _ =>
      let r := retry_each api model now uncached cache
      (r.1, 0, r.2)

/-- The running state of the batch loop of `embed_batch`: `results` (pairs of
original index and vector), the hit/miss counters, the token counter,
and the shared cache. -/
structure BatchState where
  results : List (Nat × List ℚ)
  cache_hits : Nat
  cache_misses : Nat
  total_tokens : Nat
  cache : Option CacheState

/-- One iteration of the batch loop of `embed_batch`. -/
def process_batch (api : EmbeddingApi) (model : String) (now : Int)
    (st : BatchState) (b : Nat × List String) : BatchState :=
  let pairs := enumFromIdx b.1 b.2
  let s := scan_cache model now pairs st.cache
  let p := process_uncached api model now s.2.1 s.2.2.2.2
  { results := st.results ++ (s.1 ++ p.1),
    cache_hits := st.cache_hits + s.2.2.1,
    cache_misses := st.cache_misses + s.2.2.2.1,
    total_tokens := st.total_tokens + p.2.1,
    cache := p.2.2 }

/-- Python `range(0, len(texts), batch_size)` with the corresponding slices:
each batch is `(batch_idx, texts[batch_idx : batch_idx+batch_size])`.
Structural recursion on an explicit fuel (the list length suffices for
any `batch_size ≥ 1`). -/
def make_batches_go (batch_size : Nat) : Nat → Nat → List String → List (Nat × List String)
  | _, _, [] => []
  | 0, _, _ => []
  | fuel + 1, start, l =>
    (start, l.take batch_size) ::
      make_batches_go batch_size fuel (start + batch_size) (l.drop batch_size)

/-- The batches of `texts` of size `batch_size` with their base indices. -/
def make_batches (batch_size : Nat) (l : List String) : List (Nat × List String) :=
  make_batches_go batch_size l.length 0 l

/-- Insert into a list sorted by increasing original index. -/
def insertByIdx (p : Nat × List ℚ) : List (Nat × List ℚ) → List (Nat × List ℚ)
  | [] => [p]
  | q :: rest => if p.1 ≤ q.1 then p :: q :: rest else q :: insertByIdx p rest

/-- Python `results.sort(key=lambda x: x[0])`: the stable Python sort on the
original index, modelled by a stable insertion sort. -/
def sortByIdx : List (Nat × List ℚ) → List (Nat × List ℚ)
  | [] => []
  | p :: rest => insertByIdx p (sortByIdx rest)

/-- The dict returned by `embed_batch`. -/
structure EmbedBatchResult where
  embeddings : List (List ℚ)
  hits : Nat
  misses : Nat
  hit_rate : ℚ
  prompt_tokens : Nat
  total_tokens : Nat
  deriving DecidableEq, Repr

/-- Method `EmbeddingService.embed_batch(texts, model)`: early return on an
empty input, else split into batches of `BATCH_SIZE`, run the cache pass
and the remote call per batch, then sort all `(index, vector)` pairs by
original index and extract the vectors. -/
def embed_batch (api : EmbeddingApi) (model : String) (cache : Option CacheState)
    (now : Int) (texts : List String) : EmbedBatchResult :=
  match texts with
  | [] => { embeddings := [], hits := 0, misses := 0, hit_rate := 0,
            prompt_tokens := 0, total_tokens := 0 }
  | _ :: _ =>
    let bs := make_batches BATCH_SIZE texts
    let st := bs.foldl (process_batch api model now)
      { results := [], cache_hits := 0, cache_misses := 0, total_tokens := 0,
        cache := cache }
    let sorted := sortByIdx st.results
    { embeddings := sorted.map Prod.snd,
      hits := st.cache_hits, misses := st.cache_misses,
      hit_rate := (st.cache_hits : ℚ) / (texts.length : ℚ),
      prompt_tokens := st.total_tokens, total_tokens := st.total_tokens }

/-- The per-item outcome of the retry path with the cache disabled:
blank input and a failing single call both degrade to `zero_vector`. -/
def retry_outcome (single : String → Except Unit (List ℚ)) (text : String) : List ℚ :=
  if py_strip text = "" then zero_vector
  else
    match single text with
    | .ok emb => emb
    | .error _ => zero_vector

/-! ## Concrete scenario inputs used by the witnesses -/

/-- A one-chunk pdf record. -/
def sample_record_1 : PdfRecord :=
  { total_chunks := some 1, totalChunks := none, name := some "doc.pdf" }

/-- A single stored chunk of document "p". -/
def sample_chunk_row : ChunkRow :=
  { id := 1, pdf_id := "p", chunk_index := 0, content := "c", page_number := 1,
    token_count := 3, pdf_name := "doc.pdf", has_embedding := true }

/-- The record of a 25-chunk document. -/
def sample_record_25 : PdfRecord :=
  { total_chunks := some 25, totalChunks := none, name := some "doc.pdf" }

/-- A store holding chunks 0..24 of document "p". -/
def sample_db_25 : List ChunkRow :=
  (List.range 25).map fun i =>
    { id := i, pdf_id := "p", chunk_index := i, content := "c", page_number := 1,
      token_count := 1, pdf_name := "doc.pdf", has_embedding := true }

/-- A remote endpoint that always succeeds, answering `[1.0]` for every
input and reporting 7 tokens per batch call. -/
def constant_api : EmbeddingApi :=
  { batch_api := fun ts => .ok (ts.map (fun _ => [(1 : ℚ)]), 7),
    single_api := fun _ => .ok [(1 : ℚ)] }

/-! # Theorems -/

/-! ## Association-list lemmas -/

@[simp] theorem assocGet_nil {α β : Type} [DecidableEq α] (k : α) :
    assocGet (β := β) k [] = none := rfl

@[simp] theorem assocGet_cons {α β : Type} [DecidableEq α] (k k1 : α) (v : β)
    (rest : List (α × β)) :
    assocGet k ((k1, v) :: rest) = if k1 = k then some v else assocGet k rest := rfl

theorem assocGet_assocSet_self {α β : Type} [DecidableEq α] (k : α) (v : β)
    (l : List (α × β)) : assocGet k (assocSet k v l) = some v := by
  induction l with
  | nil => simp [assocSet]
  | cons p rest ih =>
    obtain ⟨k1, v1⟩ := p
    by_cases h : k1 = k <;> simp [assocSet, h, ih]

theorem assocGet_assocSet_ne {α β : Type} [DecidableEq α] (k k2 : α) (v : β)
    (l : List (α × β)) (h : k2 ≠ k) :
    assocGet k2 (assocSet k v l) = assocGet k2 l := by
  induction l with
  | nil => simp [assocSet, Ne.symm h]
  | cons p rest ih =>
    obtain ⟨k1, v1⟩ := p
    by_cases h1 : k1 = k
    · subst h1
      simp [assocSet, Ne.symm h]
    · by_cases h2 : k1 = k2 <;> simp [assocSet, h1, h2, h, ih]

theorem assocGet_append {α β : Type} [DecidableEq α] (k : α) (l1 l2 : List (α × β)) :
    assocGet k (l1 ++ l2) =
      match assocGet k l1 with
      | some v => some v
      | none => assocGet k l2 := by
  induction l1 with
  | nil => simp
  | cons p rest ih =>
    obtain ⟨k1, v1⟩ := p
    by_cases h : k1 = k <;> simp [h, ih]

theorem assocGet_eq_none_of_not_mem {α β : Type} [DecidableEq α] (k : α)
    (l : List (α × β)) (h : k ∉ l.map Prod.fst) : assocGet k l = none := by
  induction l with
  | nil => rfl
  | cons p rest ih =>
    obtain ⟨k1, v1⟩ := p
    simp only [List.map_cons, List.mem_cons] at h
    push_neg at h
    simp [Ne.symm h.1, ih h.2]

theorem assocGet_isSome_of_mem {α β : Type} [DecidableEq α] (k : α)
    (l : List (α × β)) (h : k ∈ l.map Prod.fst) : (assocGet k l).isSome := by
  induction l with
  | nil => simp at h
  | cons p rest ih =>
    obtain ⟨k1, v1⟩ := p
    by_cases h1 : k1 = k
    · simp [h1]
    · simp only [List.map_cons, List.mem_cons] at h
      rcases h with h | h
      · exact absurd h.symm h1
      · simp [h1, ih h]

theorem assocGet_assocErase_self {α β : Type} [DecidableEq α] (k : α)
    (l : List (α × β)) (h : (l.map Prod.fst).Nodup) :
    assocGet k (assocErase k l) = none := by
  induction l with
  | nil => rfl
  | cons p rest ih =>
    obtain ⟨k1, v1⟩ := p
    simp only [List.map_cons, List.nodup_cons] at h
    by_cases h1 : k1 = k
    · subst h1
      simp only [assocErase, if_pos rfl]
      exact assocGet_eq_none_of_not_mem k1 rest h.1
    · simp [assocErase, h1, ih h.2]

theorem map_fst_assocSet_of_mem {α β : Type} [DecidableEq α] (k : α) (v : β)
    (l : List (α × β)) (h : k ∈ l.map Prod.fst) :
    (assocSet k v l).map Prod.fst = l.map Prod.fst := by
  induction l with
  | nil => simp at h
  | cons p rest ih =>
    obtain ⟨k1, v1⟩ := p
    by_cases h1 : k1 = k
    · simp [assocSet, h1]
    · simp only [List.map_cons, List.mem_cons] at h
      rcases h with h | h
      · exact absurd h.symm h1
      · simp [assocSet, h1, ih h]

theorem map_fst_assocSet_of_not_mem {α β : Type} [DecidableEq α] (k : α) (v : β)
    (l : List (α × β)) (h : k ∉ l.map Prod.fst) :
    (assocSet k v l).map Prod.fst = l.map Prod.fst ++ [k] := by
  induction l with
  | nil => simp [assocSet]
  | cons p rest ih =>
    obtain ⟨k1, v1⟩ := p
    simp only [List.map_cons, List.mem_cons] at h
    push_neg at h
    simp [assocSet, Ne.symm h.1, ih h.2]

theorem assocSet_of_not_mem {α β : Type} [DecidableEq α] (k : α) (v : β)
    (l : List (α × β)) (h : k ∉ l.map Prod.fst) :
    assocSet k v l = l ++ [(k, v)] := by
  induction l with
  | nil => rfl
  | cons p rest ih =>
    obtain ⟨k1, v1⟩ := p
    simp only [List.map_cons, List.mem_cons] at h
    push_neg at h
    simp [assocSet, Ne.symm h.1, ih h.2]

/-! ## MemoryCache lemmas -/

@[simp] theorem MemoryCache.set_max_size (s : CacheState) (t m : String) (v : List ℚ)
    (now : Int) : (MemoryCache.set s t m v now).max_size = s.max_size := rfl

@[simp] theorem MemoryCache.set_ttl (s : CacheState) (t m : String) (v : List ℚ)
    (now : Int) : (MemoryCache.set s t m v now).ttl_seconds = s.ttl_seconds := rfl

theorem MemoryCache.set_cache (s : CacheState) (t m : String) (v : List ℚ)
    (now : Int) : (MemoryCache.set s t m v now).cache =
      assocSet (generate_key t m) v (evictOldestCache s.max_size s.cache) := rfl

theorem MemoryCache.set_timestamps (s : CacheState) (t m : String) (v : List ℚ)
    (now : Int) : (MemoryCache.set s t m v now).timestamps =
      assocSet (generate_key t m) now
        (evictOldestTimestamps s.max_size s.cache s.timestamps) := rfl

theorem MemoryCache.get_set_self (s : CacheState) (t m : String) (v : List ℚ)
    (now : Int) (h : 0 ≤ s.ttl_seconds) :
    (MemoryCache.get (MemoryCache.set s t m v now) t m now).1 = some v := by
  have hc : assocGet (generate_key t m) (MemoryCache.set s t m v now).cache = some v := by
    rw [MemoryCache.set_cache]; exact assocGet_assocSet_self _ _ _
  have ht : assocGet (generate_key t m) (MemoryCache.set s t m v now).timestamps
      = some now := by
    rw [MemoryCache.set_timestamps]; exact assocGet_assocSet_self _ _ _
  have hcond : ¬ s.ttl_seconds < 0 := by omega
  simp [MemoryCache.get, hc, ht, hcond]

theorem nodup_keys_evictOldestCache (max_size : Nat)
    (c : List ((String × String) × List ℚ)) (h : (c.map Prod.fst).Nodup) :
    ((evictOldestCache max_size c).map Prod.fst).Nodup := by
  unfold evictOldestCache
  split
  · exact ((List.tail_sublist c).map Prod.fst).nodup h
  · exact h

theorem nodup_keys_set (s : CacheState) (t m : String) (v : List ℚ) (now : Int)
    (h : (s.cache.map Prod.fst).Nodup) :
    (((MemoryCache.set s t m v now).cache).map Prod.fst).Nodup := by
  have h1 := nodup_keys_evictOldestCache s.max_size s.cache h
  rw [MemoryCache.set_cache]
  by_cases hk : generate_key t m ∈ (evictOldestCache s.max_size s.cache).map Prod.fst
  · rw [map_fst_assocSet_of_mem _ _ _ hk]; exact h1
  · rw [map_fst_assocSet_of_not_mem _ _ _ hk]
    simp only [List.nodup_append, List.nodup_cons, List.nodup_nil]
    exact ⟨h1, by simp, by simpa using hk⟩

theorem MemoryCache.get_set_expired (s : CacheState) (t m : String) (v : List ℚ)
    (t0 now : Int) (hnd : (s.cache.map Prod.fst).Nodup)
    (h : s.ttl_seconds < now - t0) :
    (MemoryCache.get (MemoryCache.set s t m v t0) t m now).1 = none ∧
      assocGet (generate_key t m)
        ((MemoryCache.get (MemoryCache.set s t m v t0) t m now).2).cache = none := by
  have hc : assocGet (generate_key t m) (MemoryCache.set s t m v t0).cache = some v := by
    rw [MemoryCache.set_cache]; exact assocGet_assocSet_self _ _ _
  have ht : assocGet (generate_key t m) (MemoryCache.set s t m v t0).timestamps
      = some t0 := by
    rw [MemoryCache.set_timestamps]; exact assocGet_assocSet_self _ _ _
  have hnd2 := nodup_keys_set s t m v t0 hnd
  constructor
  · simp [MemoryCache.get, hc, ht, h]
  · simp [MemoryCache.get, hc, ht, h]
    exact assocGet_assocErase_self _ _ hnd2

@[simp] theorem insert_all_nil (s : CacheState) (now : Int) :
    insert_all s [] now = s := rfl

theorem insert_all_cons (s : CacheState) (it : CacheItem) (rest : List CacheItem)
    (now : Int) : insert_all s (it :: rest) now =
      insert_all (MemoryCache.set s it.1.1 it.1.2 it.2 now) rest now := rfl

theorem insert_all_append (s : CacheState) (l1 l2 : List CacheItem) (now : Int) :
    insert_all s (l1 ++ l2) now = insert_all (insert_all s l1 now) l2 now :=
  List.foldl_append _ _ _ _

@[simp] theorem insert_all_max_size (items : List CacheItem) :
    ∀ (s : CacheState) (now : Int), (insert_all s items now).max_size = s.max_size := by
  induction items with
  | nil => intro s now; rfl
  | cons it rest ih => intro s now; rw [insert_all_cons, ih]; rfl

theorem set_cache_fresh_not_full (s : CacheState) (t m : String) (v : List ℚ)
    (now : Int) (hfresh : generate_key t m ∉ s.cache.map Prod.fst)
    (hroom : s.cache.length < s.max_size) :
    (MemoryCache.set s t m v now).cache = s.cache ++ [(generate_key t m, v)] := by
  rw [MemoryCache.set_cache]
  have hev : evictOldestCache s.max_size s.cache = s.cache := by
    unfold evictOldestCache; rw [if_neg (by omega)]
  rw [hev, assocSet_of_not_mem _ _ _ hfresh]

theorem insert_all_cache_of_room (items : List CacheItem) :
    ∀ (s : CacheState) (now : Int),
      (s.cache.map Prod.fst ++ items.map itemKey).Nodup →
      s.cache.length + items.length ≤ s.max_size →
      (insert_all s items now).cache =
        s.cache ++ items.map (fun it => (itemKey it, it.2)) := by
  induction items with
  | nil => intro s now _ _; simp
  | cons it rest ih =>
    intro s now hnd hlen
    have hfresh : itemKey it ∉ s.cache.map Prod.fst := by
      intro hmem
      rcases List.nodup_append.mp hnd with ⟨_, _, hdisj⟩
      exact hdisj hmem (List.mem_cons_self _ _)
    have hroom : s.cache.length < s.max_size := by
      simp only [List.length_cons] at hlen; omega
    have hstep := set_cache_fresh_not_full s it.1.1 it.1.2 it.2 now hfresh hroom
    rw [insert_all_cons, ih]
    · rw [hstep, List.append_assoc]
      rfl
    · rw [hstep]
      simp only [List.map_append, List.map_cons] at hnd ⊢
      simpa [List.append_assoc] using hnd
    · rw [hstep]
      simp only [List.length_append, List.length_singleton, MemoryCache.set_max_size]
      simp only [List.length_cons] at hlen
      omega

/-- Inserting `N + 1` items with pairwise distinct keys into an initially
empty cache of capacity `N ≥ 1` (no intervening `get`s) evicts exactly
the first-inserted key; every other key is still bound. -/
theorem insert_all_evicts_first (N : Nat) (first : CacheItem) (rest : List CacheItem)
    (ttl now : Int) (hN : 1 ≤ N) (hlen : rest.length = N)
    (hnd : ((first :: rest).map itemKey).Nodup) :
    assocGet (itemKey first)
        (insert_all (MemoryCache.init N ttl) (first :: rest) now).cache = none ∧
      ∀ it ∈ rest,
        (assocGet (itemKey it)
          (insert_all (MemoryCache.init N ttl) (first :: rest) now).cache).isSome := by
  rcases List.eq_nil_or_concat rest with hr | ⟨mid, last, hr⟩
  · subst hr
    simp only [List.length_nil] at hlen
    omega
  subst hr
  rw [List.concat_eq_append] at hlen hnd ⊢
  have hmidlen : mid.length + 1 = N := by simpa using hlen
  simp only [List.map_cons, List.map_append, List.map_nil] at hnd
  have hk0 : itemKey first ∉ mid.map itemKey ++ [itemKey last] :=
    (List.nodup_cons.mp hnd).1
  have hrestnd : (mid.map itemKey ++ [itemKey last]).Nodup :=
    (List.nodup_cons.mp hnd).2
  have hmidnd : (mid.map itemKey).Nodup := (List.nodup_append.mp hrestnd).1
  have hklast : itemKey last ∉ mid.map itemKey := fun hmem =>
    (List.nodup_append.mp hrestnd).2.2 hmem (by simp)
  have hsplit : insert_all (MemoryCache.init N ttl) (first :: (mid ++ [last])) now
      = MemoryCache.set
          (insert_all
            (MemoryCache.set (MemoryCache.init N ttl) first.1.1 first.1.2 first.2 now)
            mid now)
          last.1.1 last.1.2 last.2 now := by
    have h1 : first :: (mid ++ [last]) = (first :: mid) ++ [last] := rfl
    rw [h1, insert_all_append]
    rfl
  set s1 := MemoryCache.set (MemoryCache.init N ttl) first.1.1 first.1.2 first.2 now
    with hs1
  have hs1cache : s1.cache = [(itemKey first, first.2)] := by
    rw [hs1, set_cache_fresh_not_full]
    · rfl
    · simp [MemoryCache.init]
    · simp only [MemoryCache.init, List.length_nil]
      omega
  have hs1max : s1.max_size = N := rfl
  set s2 := insert_all s1 mid now with hs2
  have hs2cache : s2.cache
      = (itemKey first, first.2) :: mid.map (fun it => (itemKey it, it.2)) := by
    rw [hs2, insert_all_cache_of_room]
    · rw [hs1cache]
      rfl
    · rw [hs1cache]
      simp only [List.map_cons, List.map_nil, List.singleton_append, List.nodup_cons]
      refine ⟨fun hmem => hk0 (List.mem_append_left _ hmem), hmidnd⟩
    · rw [hs1cache, hs1max]
      simp only [List.length_singleton]
      omega
  have hs2max : s2.max_size = N := by
    rw [hs2, insert_all_max_size, hs1max]
  have hs2len : s2.cache.length = N := by
    rw [hs2cache]
    simp only [List.length_cons, List.length_map]
    omega
  have hevict : evictOldestCache s2.max_size s2.cache
      = mid.map (fun it => (itemKey it, it.2)) := by
    unfold evictOldestCache
    rw [if_pos (by rw [hs2max, hs2len])]
    rw [hs2cache]
    rfl
  have hfreshlast : generate_key last.1.1 last.1.2
      ∉ (mid.map (fun it => (itemKey it, it.2))).map Prod.fst := by
    simpa [itemKey, Function.comp] using hklast
  have hfinal : (MemoryCache.set s2 last.1.1 last.1.2 last.2 now).cache
      = mid.map (fun it => (itemKey it, it.2)) ++ [(itemKey last, last.2)] := by
    rw [MemoryCache.set_cache, hevict, assocSet_of_not_mem _ _ _ hfreshlast]
    rfl
  have hkeysfinal : ((mid.map (fun it => (itemKey it, it.2))
        ++ [(itemKey last, last.2)]).map Prod.fst)
      = mid.map itemKey ++ [itemKey last] := by
    simp [Function.comp]
  constructor
  · rw [hsplit, hfinal]
    apply assocGet_eq_none_of_not_mem
    rw [hkeysfinal]
    exact hk0
  · intro it hit
    rw [hsplit, hfinal]
    apply assocGet_isSome_of_mem
    rw [hkeysfinal]
    rcases List.mem_append.mp hit with hmem | hmem
    · exact List.mem_append_left _ (List.mem_map_of_mem _ hmem)
    · simp only [List.mem_singleton] at hmem
      subst hmem
      exact List.mem_append_right _ (by simp)

/-! ## Claim C4 -/

/-- C4: (1) immediately after `set(t, m, v)`, `get(t, m)` returns `v`
(for any state whose TTL is non-negative, as in every constructed
cache); (2) once the age of the entry exceeds `ttl_seconds`, `get(t, m)` returns
absent and the entry is purged from the store; (3) inserting `N+1`
distinct keys into a capacity-`N` cache (`N ≥ 1`) with no intervening
`get`s leaves the first-inserted key absent while the other `N` keys
remain present. -/
theorem C4_cache_set_get_ttl_lru :
    (∀ (s : CacheState) (t m : String) (v : List ℚ) (now : Int),
        0 ≤ s.ttl_seconds →
        (MemoryCache.get (MemoryCache.set s t m v now) t m now).1 = some v)
    ∧ (∀ (s : CacheState) (t m : String) (v : List ℚ) (t0 now : Int),
        (s.cache.map Prod.fst).Nodup → s.ttl_seconds < now - t0 →
        (MemoryCache.get (MemoryCache.set s t m v t0) t m now).1 = none ∧
          assocGet (generate_key t m)
            ((MemoryCache.get (MemoryCache.set s t m v t0) t m now).2).cache = none)
    ∧ (∀ (N : Nat) (first : CacheItem) (rest : List CacheItem) (ttl now : Int),
        1 ≤ N → rest.length = N → ((first :: rest).map itemKey).Nodup →
        assocGet (itemKey first)
            (insert_all (MemoryCache.init N ttl) (first :: rest) now).cache = none ∧
          ∀ it ∈ rest,
            (assocGet (itemKey it)
              (insert_all (MemoryCache.init N ttl) (first :: rest) now).cache).isSome) :=
  ⟨MemoryCache.get_set_self, MemoryCache.get_set_expired, insert_all_evicts_first⟩

/-- Witness for C4 at concrete inputs: a capacity-2 cache with TTL 10. -/
theorem C4_cache_set_get_ttl_lru_witness :
    ((MemoryCache.get (MemoryCache.set (MemoryCache.init 2 10) "x" "mo" [1] 0)
        "x" "mo" 0).1 = some [1])
    ∧ ((MemoryCache.get (MemoryCache.set (MemoryCache.init 2 10) "x" "mo" [1] 0)
        "x" "mo" 100).1 = none)
    ∧ (assocGet (itemKey (("a", "mo"), [1]))
          (insert_all (MemoryCache.init 2 5)
            [(("a", "mo"), [1]), (("b", "mo"), [2]), (("c", "mo"), [3])] 0).cache
        = none)
    ∧ ((assocGet (itemKey (("b", "mo"), [2]))
          (insert_all (MemoryCache.init 2 5)
            [(("a", "mo"), [1]), (("b", "mo"), [2]), (("c", "mo"), [3])] 0).cache).isSome) := by
  refine ⟨?_, ?_, ?_, ?_⟩
  · exact C4_cache_set_get_ttl_lru.1 (MemoryCache.init 2 10) "x" "mo" [1] 0 (by decide)
  · exact (C4_cache_set_get_ttl_lru.2.1 (MemoryCache.init 2 10) "x" "mo" [1] 0 100
      (by decide) (by decide)).1
  · exact (C4_cache_set_get_ttl_lru.2.2 2 (("a", "mo"), [1])
      [(("b", "mo"), [2]), (("c", "mo"), [3])] 5 0 (by decide) (by decide) (by decide)).1
  · exact (C4_cache_set_get_ttl_lru.2.2 2 (("a", "mo"), [1])
      [(("b", "mo"), [2]), (("c", "mo"), [3])] 5 0 (by decide) (by decide) (by decide)).2
      (("b", "mo"), [2]) (by decide)

/-! ## Claim C10 -/

/-- C10: `search` substitutes the configured defaults for falsy — not
merely absent — parameters: an explicit `threshold = 0.0` is replaced by
the configured `SIMILARITY_THRESHOLD`, and an explicit `top_k = 0` by
the configured `RETRIEVAL_TOP_K`, so the call behaves exactly like a
call made with the configured values. -/
theorem C10_search_falsy_defaults (sim : ChunkRow → ℚ) (db : List ChunkRow)
    (pdf_id : Option String) (top_k : Option Nat) (threshold : Option ℚ) :
    search sim db pdf_id top_k (some 0)
        = search sim db pdf_id top_k (some SIMILARITY_THRESHOLD)
      ∧ search sim db pdf_id (some 0) threshold
        = search sim db pdf_id (some RETRIEVAL_TOP_K) threshold := by
  constructor
  · unfold search
    norm_num [pyOrRat, SIMILARITY_THRESHOLD]
  · unfold search
    norm_num [pyOrNat, RETRIEVAL_TOP_K]

/-! ## Claim C2 -/

/-- C2 (evaluation at the failing input): on a three-page input whose
middle page is whitespace-only, `chunk_by_pages` does skip the blank
page and does stamp `page_number`, but it assigns `chunk_index = 0` to
the chunk of every page — the indices restart on each page via
the per-call enumeration in `chunk_text` instead of being globally
contiguous (`0, 1`), contradicting the docstring of the function itself
("chunk_index 是全局索引（跨页连续）"). -/
theorem C2_chunk_by_pages_restarts_indices :
    (chunk_by_pages split_within_size
        [{ page := some 1, text := some "alpha" },
         { page := some 2, text := some "   " },
         { page := some 3, text := some "beta" }]).map
        (fun c => (c.chunk_index, c.content, c.metadata.page_number))
      = [(0, "alpha", some 1), (0, "beta", some 3)] := by
  decide

/-! ## Claim C7 -/

/-- C7 (evaluation at the failing input): with an enabled rewriter, when
normalization succeeds (producing a normalized query different from the
original) and an unhandled exception is then raised during the
decomposition step, `rewrite` does catch it and returns
`query_type = "fallback"` — but `final_query` is the normalized query,
not the original input query: the outer handler sets `query_type`,
`error` and a step, and never restores `final_query`. -/
theorem C7_rewrite_fallback_keeps_normalized :
    rewrite (fun _ => .ok "机器学习与深度学习对比") (fun _ => .error ())
        (fun _ => .ok "") true "A和B的区别"
      = { original_query := "A和B的区别",
          normalized_query := some "机器学习与深度学习对比",
          final_query := "机器学习与深度学习对比",
          query_type := "fallback",
          sub_queries := none,
          steps := ["标准化完成", "使用查询分解", "查询重写失败"],
          error := true } := by
  decide

/-! ## Claim C8 -/

/-- C8 (counterexample): the fixed compound-keyword set of `rewrite` is
Chinese-only (`和, 与, 或者, 以及, 区别, 对比, 比较`), so the English
query of the claim contains none of its members: under an enabled
rewriter whose normalization returns the query unchanged and whose
LLM calls return normally, the English query of the claim is
classified not-compound and gets `query_type = "expansion"`, not
`"decomposition"`. -/
theorem C8_english_contrast_query_not_decomposition :
    (rewrite (fun q => .ok q) (fun _ => .ok "") (fun _ => .ok "") true
        "X and Y, what's the difference?").query_type = "expansion"
      ∧ (rewrite (fun q => .ok q) (fun _ => .ok "") (fun _ => .ok "") true
        "X and Y, what's the difference?").query_type ≠ "decomposition" := by
  constructor
  · decide
  · decide

/-- C8 (amended): under an enabled rewriter, a query containing a
keyword of the fixed Chinese conjunction/contrast set — such as
"X和Y，有什么区别？" — is classified compound and gets
`query_type = "decomposition"`, and a keyword-free query such as
"What is X?" gets `query_type = "expansion"`; here normalization returns
the query unchanged and the decompose/expand calls return without
raising. -/
theorem C8_keyword_classification
    (normalize decompose expand : String → Except Unit String)
    (hn1 : normalize "X和Y，有什么区别？" = .ok "X和Y，有什么区别？")
    (hn2 : normalize "What is X?" = .ok "What is X?")
    (d1 : String) (hd : decompose "X和Y，有什么区别？" = .ok d1)
    (e1 : String) (he : expand "What is X?" = .ok e1) :
    (rewrite normalize decompose expand true "X和Y，有什么区别？").query_type
        = "decomposition"
      ∧ (rewrite normalize decompose expand true "What is X?").query_type
        = "expansion" := by
  constructor
  · unfold rewrite
    rw [hn1]
    simp only [Bool.not_true, Bool.false_eq_true, if_false]
    have hne : ("X和Y，有什么区别？" = "") = False := by simp
    have hcomp : is_compound "X和Y，有什么区别？" = true := by decide
    simp only [ne_eq, hne, not_false_eq_true, if_true, hcomp, if_true]
    rw [hd]
    split
    · next x a heq => exact Except.noConfusion heq
    · next x d heq => split <;> rfl
  · unfold rewrite
    rw [hn2]
    have hne : ("What is X?" = "") = False := by simp
    have hcomp : is_compound "What is X?" = false := by decide
    simp only [Bool.not_true, Bool.false_eq_true, if_false, ne_eq, hne,
      not_false_eq_true, if_true, hcomp, Bool.false_eq_true, if_false]
    rw [he]
    split
    · next x a heq => exact Except.noConfusion heq
    · next x d heq => split <;> rfl

/-! ## Retriever lemmas -/

@[simp] theorem pdf_filter_some (pid : String) (r : ChunkRow) :
    pdf_filter (some pid) r = (r.pdf_id == pid) := rfl

theorem filter_and_pdf_eq_nil (db : List ChunkRow) (pid : String)
    (p : ChunkRow → Bool) (h : db.filter (fun r => r.pdf_id == pid) = []) :
    db.filter (fun r => p r && pdf_filter (some pid) r) = [] := by
  induction db with
  | nil => rfl
  | cons r rest ih =>
    rw [List.filter_cons] at h ⊢
    by_cases hp : (r.pdf_id == pid) = true
    · rw [if_pos hp] at h
      exact absurd h (by simp)
    · rw [if_neg hp] at h
      rw [if_neg (by simp [pdf_filter_some, hp])]
      exact ih h

theorem search_eq_nil_of_no_doc_rows (sim : ChunkRow → ℚ) (db : List ChunkRow)
    (pid : String) (top_k : Option Nat) (threshold : Option ℚ)
    (h : db.filter (fun r => r.pdf_id == pid) = []) :
    search sim db (some pid) top_k threshold = [] := by
  unfold search
  rw [filter_and_pdf_eq_nil db pid _ h]
  simp [sortBySimDesc]

theorem search_eq_nil_of_low_sim (sim : ChunkRow → ℚ) (db : List ChunkRow)
    (pid : String) (top_k : Option Nat) (th : ℚ) (hth : th ≠ 0)
    (h : ∀ r ∈ db, r.pdf_id = pid → sim r < th) :
    search sim db (some pid) top_k (some th) = [] := by
  unfold search
  have heff : pyOrRat (some th) SIMILARITY_THRESHOLD = th := by simp [pyOrRat, hth]
  rw [heff]
  have hfilter : ((db.filter fun r => r.has_embedding && pdf_filter (some pid) r).filter
      fun r => decide (th ≤ sim r)) = [] := by
    rw [List.filter_eq_nil_iff]
    intro r hr
    obtain ⟨hr1, hr2⟩ := List.mem_filter.mp hr
    have hpid : r.pdf_id = pid := by
      have := (Bool.and_eq_true _ _).mp hr2
      simpa using this.2
    have := h r hr1 hpid
    simpa using not_le.mpr this
  simp only [hfilter, sortBySimDesc, List.take_nil, List.map_nil]

@[simp] theorem length_insertByChunkIndex (r : ChunkRow) (l : List ChunkRow) :
    (insertByChunkIndex r l).length = l.length + 1 := by
  induction l with
  | nil => rfl
  | cons r1 rest ih =>
    unfold insertByChunkIndex
    split
    · rfl
    · simp [ih]

@[simp] theorem length_sortByChunkIndex (l : List ChunkRow) :
    (sortByChunkIndex l).length = l.length := by
  induction l with
  | nil => rfl
  | cons r rest ih => simp [sortByChunkIndex, ih]

theorem length_le_sample_rows (rec : PdfRecord) (step : Nat) :
    ∀ (rows : List ChunkRow) (i : Nat) (acc : List RetrievalResult),
      acc.length ≤ (sample_rows rec step rows i acc).length := by
  intro rows
  induction rows with
  | nil => intro i acc; simp [sample_rows]
  | cons r rest ih =>
    intro i acc
    unfold sample_rows
    split
    · split
      · simp
      · calc acc.length ≤ (acc ++ [fallback_result rec r]).length := by simp
          _ ≤ _ := ih (i + 1) (acc ++ [fallback_result rec r])
    · exact ih (i + 1) acc

theorem sample_rows_ne_nil (rec : PdfRecord) (step : Nat) (r : ChunkRow)
    (rest : List ChunkRow) : sample_rows rec step (r :: rest) 0 [] ≠ [] := by
  unfold sample_rows
  rw [if_pos (Nat.zero_mod step)]
  split
  · simp
  · intro h
    have h1 := length_le_sample_rows rec step rest 1 ([] ++ [fallback_result rec r])
    rw [h] at h1
    simp at h1

theorem map_chunk_index_sample_rows (rec : PdfRecord) (step : Nat) :
    ∀ (rows : List ChunkRow) (i : Nat) (acc : List RetrievalResult),
      (sample_rows rec step rows i acc).map (fun res => res.chunk_index)
        = sample_idx step (rows.map (fun r => r.chunk_index)) i
            (acc.map (fun res => res.chunk_index)) := by
  intro rows
  induction rows with
  | nil => intro i acc; simp [sample_rows, sample_idx]
  | cons r rest ih =>
    intro i acc
    unfold sample_rows
    rw [List.map_cons]
    unfold sample_idx
    by_cases hmod : i % step = 0
    · rw [if_pos hmod, if_pos hmod]
      by_cases h10 : 10 ≤ (acc ++ [fallback_result rec r]).length
      · rw [if_pos h10, if_pos (by simpa using h10)]
        simp [fallback_result]
      · rw [if_neg h10, if_neg (by simpa using h10)]
        rw [ih (i + 1) (acc ++ [fallback_result rec r])]
        simp [fallback_result]
    · rw [if_neg hmod, if_neg hmod]
      exact ih (i + 1) acc

theorem similarity_zero_sample_rows (rec : PdfRecord) (step : Nat) :
    ∀ (rows : List ChunkRow) (i : Nat) (acc : List RetrievalResult),
      (∀ a ∈ acc, a.similarity = 0) →
      ∀ res ∈ sample_rows rec step rows i acc, res.similarity = 0 := by
  intro rows
  induction rows with
  | nil =>
    intro i acc hacc
    simpa [sample_rows] using hacc
  | cons r rest ih =>
    intro i acc hacc
    have hacc1 : ∀ a ∈ acc ++ [fallback_result rec r], a.similarity = 0 := by
      intro a ha
      rcases List.mem_append.mp ha with h | h
      · exact hacc a h
      · simp only [List.mem_singleton] at h
        subst h
        rfl
    unfold sample_rows
    split
    · split
      · exact hacc1
      · exact ih (i + 1) _ hacc1
    · exact ih (i + 1) acc hacc

/-! ## Claim C1 -/

/-- C1: for every query (entering through `sim`) and every document:
with 0 stored chunks `smart_retrieval` returns the empty list; with at
least one stored chunk it returns a non-empty list — in particular even
when the similarity of every chunk is below both thresholds, since tier 3
(or 4) then supplies results from the store without similarity
filtering. -/
theorem C1_smart_retrieval_nonempty (sim : ChunkRow → ℚ) (db : List ChunkRow)
    (pdf_id : String) (rec : PdfRecord) :
    (db.filter (fun r => r.pdf_id == pdf_id) = [] →
        smart_retrieval sim db pdf_id rec = [])
    ∧ (db.filter (fun r => r.pdf_id == pdf_id) ≠ [] →
        smart_retrieval sim db pdf_id rec ≠ []) := by
  constructor
  · intro h
    have h1 := search_eq_nil_of_no_doc_rows sim db pdf_id (some 5) (some (3/5)) h
    have h2 := search_eq_nil_of_no_doc_rows sim db pdf_id (some 8) (some (2/5)) h
    have h3 : chunks_by_index db pdf_id = [] := by
      unfold chunks_by_index
      rw [h]
      rfl
    unfold smart_retrieval
    rw [h1, h2, h3]
    simp [sample_rows]
  · intro h
    simp only [smart_retrieval]
    split
    · next h1 =>
      intro he
      rw [he] at h1
      simp at h1
    · split
      · next h2 =>
        intro he
        rw [he] at h2
        simp at h2
      · have hcbi : chunks_by_index db pdf_id ≠ [] := by
          intro hnil
          have hl := congrArg List.length hnil
          unfold chunks_by_index at hl
          rw [length_sortByChunkIndex] at hl
          simp only [List.length_nil] at hl
          exact h (List.length_eq_zero.mp hl)
        have htk : (chunks_by_index db pdf_id).take 100 ≠ [] := by
          intro hnil
          rcases List.take_eq_nil_iff.mp hnil with h100 | hget
          · exact absurd h100 (by norm_num)
          · exact hcbi hget
        obtain ⟨r, rest, hr⟩ := List.exists_cons_of_ne_nil htk
        rw [hr]
        split
        · next hs => exact hs
        · next hs => exact absurd (sample_rows_ne_nil rec _ r rest) hs

/-- Witness for C1: the empty store, and a one-chunk store. -/
theorem C1_smart_retrieval_nonempty_witness :
    smart_retrieval (fun _ => 0) [] "p" sample_record_1 = []
    ∧ smart_retrieval (fun _ => 0) [sample_chunk_row] "p" sample_record_1 ≠ [] :=
  ⟨(C1_smart_retrieval_nonempty (fun _ => 0) [] "p" sample_record_1).1 rfl,
   (C1_smart_retrieval_nonempty (fun _ => 0) [sample_chunk_row] "p" sample_record_1).2
     (by decide)⟩

/-! ## Claim C3 -/

/-- C3: for a document whose stored chunks are indexed 0..24 and whose
record reports 25 total chunks, when every stored chunk of the document
scores below the tier-2 threshold 0.4 on the query, `smart_retrieval`
falls through to tier 3 with `step = max(1, 25 // 10) = 2` and returns
exactly the chunks at indices 0, 2, 4, ..., 18 — ten results ordered by
chunk index — each stamped `similarity = 0.0`. -/
theorem C3_smart_retrieval_uniform_sampling (sim : ChunkRow → ℚ)
    (db : List ChunkRow) (pdf_id : String) (rec : PdfRecord)
    (hidx : (chunks_by_index db pdf_id).map (fun r => r.chunk_index) = List.range 25)
    (htotal : record_total_chunks rec = 25)
    (hsim : ∀ r ∈ db, r.pdf_id = pdf_id → sim r < 2/5) :
    ((smart_retrieval sim db pdf_id rec).map (fun res => res.chunk_index)
        = [0, 2, 4, 6, 8, 10, 12, 14, 16, 18])
    ∧ ∀ res ∈ smart_retrieval sim db pdf_id rec, res.similarity = 0 := by
  have h1 : search sim db (some pdf_id) (some 5) (some (3/5)) = [] :=
    search_eq_nil_of_low_sim sim db pdf_id (some 5) (3/5) (by norm_num)
      (fun r hr hp => lt_trans (hsim r hr hp) (by norm_num))
  have h2 : search sim db (some pdf_id) (some 8) (some (2/5)) = [] :=
    search_eq_nil_of_low_sim sim db pdf_id (some 8) (2/5) (by norm_num) hsim
  have hlen : (chunks_by_index db pdf_id).length = 25 := by
    have hl := congrArg List.length hidx
    simpa using hl
  have htake : (chunks_by_index db pdf_id).take 100 = chunks_by_index db pdf_id :=
    List.take_of_length_le (by omega)
  have hstep : max 1 (record_total_chunks rec / 10) = 2 := by
    rw [htotal]
    decide
  have hsampmap : (sample_rows rec 2 (chunks_by_index db pdf_id) 0 []).map
      (fun res => res.chunk_index) = sample_idx 2 (List.range 25) 0 [] := by
    rw [map_chunk_index_sample_rows, hidx]
    rfl
  have hval : sample_idx 2 (List.range 25) 0 []
      = [0, 2, 4, 6, 8, 10, 12, 14, 16, 18] := by decide
  have hne : sample_rows rec 2 (chunks_by_index db pdf_id) 0 [] ≠ [] := by
    intro h0
    rw [h0] at hsampmap
    rw [hval] at hsampmap
    simp at hsampmap
  simp only [smart_retrieval]
  rw [h1, h2]
  simp only [List.length_nil]
  rw [if_neg (by omega), if_neg (by omega), hstep, htake, if_pos hne]
  exact ⟨hsampmap.trans hval,
    similarity_zero_sample_rows rec 2 (chunks_by_index db pdf_id) 0 [] (by simp)⟩

/-- Witness for C3: a 25-chunk store whose chunks all have similarity 0
to the query. -/
theorem C3_smart_retrieval_uniform_sampling_witness :
    (smart_retrieval (fun _ => 0) sample_db_25 "p" sample_record_25).map
        (fun res => res.chunk_index) = [0, 2, 4, 6, 8, 10, 12, 14, 16, 18] :=
  (C3_smart_retrieval_uniform_sampling (fun _ => 0) sample_db_25 "p" sample_record_25
    (by decide) (by decide) (by intro r hr hp; norm_num)).1

/-! ## Embedding client lemmas -/

@[simp] theorem enumFromIdx_length (l : List String) :
    ∀ (start : Nat), (enumFromIdx start l).length = l.length := by
  induction l with
  | nil => intro start; rfl
  | cons t rest ih => intro start; simp [enumFromIdx, ih]

theorem scan_cache_counts (model : String) (now : Int) (pairs : List (Nat × String)) :
    ∀ (cache : Option CacheState),
      (scan_cache model now pairs cache).1.length
          + (scan_cache model now pairs cache).2.1.length = pairs.length
        ∧ (scan_cache model now pairs cache).2.2.1
          + (scan_cache model now pairs cache).2.2.2.1 = pairs.length := by
  induction pairs with
  | nil => intro cache; simp [scan_cache]
  | cons p rest ih =>
    intro cache
    obtain ⟨idx, text⟩ := p
    cases cache with
    | none =>
      have h := ih none
      simp only [scan_cache, List.length_cons]
      omega
    | some cs =>
      rcases hget : MemoryCache.get cs text model now with ⟨res, cs1⟩
      cases res with
      | some v =>
        have h := ih (some cs1)
        simp only [scan_cache, hget, List.length_cons]
        omega
      | none =>
        have h := ih (some cs1)
        simp only [scan_cache, hget, List.length_cons]
        omega

theorem retry_each_length (api : EmbeddingApi) (model : String) (now : Int)
    (un : List (String × Nat)) : ∀ (cache : Option CacheState),
      (retry_each api model now un cache).1.length = un.length := by
  induction un with
  | nil => intro cache; rfl
  | cons p rest ih =>
    intro cache
    obtain ⟨text, idx⟩ := p
    rcases hes : embed_single api model now cache text with ⟨res, c1⟩
    simp only [retry_each, hes, List.length_cons]
    rw [ih c1]

theorem process_uncached_length (api : EmbeddingApi) (model : String) (now : Int)
    (un : List (String × Nat)) (cache : Option CacheState) :
    (process_uncached api model now un cache).1.length = un.length := by
  cases un with
  | nil => rfl
  | cons p rest =>
    simp only [process_uncached]
    cases hb : api.batch_api ((p :: rest).map Prod.fst) with
    | error e => simp [retry_each_length]
    | ok pair =>
      obtain ⟨embs, tok⟩ := pair
      by_cases hl : embs.length = (p :: rest).length
      · simp [hl, List.length_zip, Nat.min_self]
      · have hl2 : ¬ embs.length = rest.length + 1 := by simpa using hl
        simp [hl2, retry_each_length]

theorem process_batch_spec (api : EmbeddingApi) (model : String) (now : Int)
    (st : BatchState) (b : Nat × List String) :
    (process_batch api model now st b).results.length
        = st.results.length + b.2.length
      ∧ (process_batch api model now st b).cache_hits
          + (process_batch api model now st b).cache_misses
        = st.cache_hits + st.cache_misses + b.2.length := by
  have hsc := scan_cache_counts model now (enumFromIdx b.1 b.2) st.cache
  have hpu := process_uncached_length api model now
    (scan_cache model now (enumFromIdx b.1 b.2) st.cache).2.1
    (scan_cache model now (enumFromIdx b.1 b.2) st.cache).2.2.2.2
  have hel := enumFromIdx_length b.2 b.1
  simp only [process_batch, List.length_append]
  omega

theorem foldl_process_batch_spec (api : EmbeddingApi) (model : String) (now : Int)
    (bs : List (Nat × List String)) :
    ∀ (st : BatchState),
      ((bs.foldl (process_batch api model now) st).results.length
          = st.results.length + (bs.map (fun b => b.2.length)).sum)
        ∧ ((bs.foldl (process_batch api model now) st).cache_hits
            + (bs.foldl (process_batch api model now) st).cache_misses
          = st.cache_hits + st.cache_misses + (bs.map (fun b => b.2.length)).sum) := by
  induction bs with
  | nil => intro st; simp
  | cons b rest ih =>
    intro st
    have h1 := process_batch_spec api model now st b
    have h2 := ih (process_batch api model now st b)
    simp only [List.foldl_cons, List.map_cons, List.sum_cons]
    omega

theorem make_batches_go_sum (batch_size : Nat) (hbs : 1 ≤ batch_size) :
    ∀ (fuel : Nat) (l : List String) (start : Nat), l.length ≤ fuel →
      ((make_batches_go batch_size fuel start l).map (fun b => b.2.length)).sum
        = l.length := by
  intro fuel
  induction fuel with
  | zero =>
    intro l start h
    cases l with
    | nil => rfl
    | cons t rest => simp at h
  | succ fuel ih =>
    intro l start h
    cases l with
    | nil => rfl
    | cons t rest =>
      simp only [make_batches_go, List.map_cons, List.sum_cons]
      rw [ih ((t :: rest).drop batch_size) (start + batch_size)
        (by simp only [List.length_drop, List.length_cons] at h ⊢; omega)]
      simp only [List.length_take, List.length_drop, List.length_cons]
      omega

@[simp] theorem length_insertByIdx (p : Nat × List ℚ) (l : List (Nat × List ℚ)) :
    (insertByIdx p l).length = l.length + 1 := by
  induction l with
  | nil => rfl
  | cons q rest ih =>
    unfold insertByIdx
    split
    · rfl
    · simp [ih]

@[simp] theorem length_sortByIdx (l : List (Nat × List ℚ)) :
    (sortByIdx l).length = l.length := by
  induction l with
  | nil => rfl
  | cons p rest ih => simp [sortByIdx, ih]

theorem fst_ge_of_mem_enumFromIdx (l : List String) :
    ∀ (start : Nat) (p : Nat × String), p ∈ enumFromIdx start l → start ≤ p.1 := by
  induction l with
  | nil => intro start p h; simp [enumFromIdx] at h
  | cons t rest ih =>
    intro start p h
    simp only [enumFromIdx, List.mem_cons] at h
    rcases h with h | h
    · subst h; exact le_refl _
    · exact le_trans (Nat.le_succ _) (ih (start + 1) p h)

theorem pairwise_enumFromIdx_map (f : String → List ℚ) (l : List String) :
    ∀ (start : Nat),
      ((enumFromIdx start l).map (fun p => (p.1, f p.2))).Pairwise
        (fun a b => a.1 ≤ b.1) := by
  induction l with
  | nil => intro start; simp [enumFromIdx]
  | cons t rest ih =>
    intro start
    simp only [enumFromIdx, List.map_cons]
    refine List.Pairwise.cons ?_ (ih (start + 1))
    intro b hb
    obtain ⟨q, hq, hbq⟩ := List.mem_map.mp hb
    have := fst_ge_of_mem_enumFromIdx rest (start + 1) q hq
    subst hbq
    simp only
    omega

theorem sortByIdx_of_pairwise (l : List (Nat × List ℚ))
    (h : l.Pairwise (fun a b => a.1 ≤ b.1)) : sortByIdx l = l := by
  induction l with
  | nil => rfl
  | cons p rest ih =>
    obtain ⟨hall, htail⟩ := List.pairwise_cons.mp h
    rw [sortByIdx, ih htail]
    cases rest with
    | nil => rfl
    | cons q qs =>
      unfold insertByIdx
      rw [if_pos (hall q (List.mem_cons_self _ _))]

theorem map_snd_enumFromIdx_map (f : String → List ℚ) (l : List String) :
    ∀ (start : Nat),
      ((enumFromIdx start l).map (fun p => (p.1, f p.2))).map Prod.snd = l.map f := by
  induction l with
  | nil => intro start; rfl
  | cons t rest ih => intro start; simp only [enumFromIdx, List.map_cons, ih]

theorem scan_cache_none (model : String) (now : Int) (pairs : List (Nat × String)) :
    scan_cache model now pairs none
      = ([], pairs.map (fun p => (p.2, p.1)), 0, pairs.length, none) := by
  induction pairs with
  | nil => rfl
  | cons p rest ih =>
    obtain ⟨idx, text⟩ := p
    simp [scan_cache, ih]

theorem retry_each_none (api : EmbeddingApi) (model : String) (now : Int)
    (un : List (String × Nat)) :
    retry_each api model now un none
      = (un.map (fun p => (p.2, retry_outcome api.single_api p.1)), none) := by
  induction un with
  | nil => rfl
  | cons p rest ih =>
    obtain ⟨text, idx⟩ := p
    by_cases hb : py_strip text = ""
    · simp [retry_each, embed_single, hb, retry_outcome, ih]
    · cases hs : api.single_api text with
      | ok emb => simp [retry_each, embed_single, hb, hs, retry_outcome, ih]
      | error e => simp [retry_each, embed_single, hb, hs, retry_outcome, ih]

theorem process_uncached_fail (api : EmbeddingApi) (model : String) (now : Int)
    (hb : ∀ ts, api.batch_api ts = .error ()) (un : List (String × Nat)) :
    process_uncached api model now un none
      = (un.map (fun p => (p.2, retry_outcome api.single_api p.1)), 0, none) := by
  cases un with
  | nil => rfl
  | cons p rest =>
    simp only [process_uncached]
    rw [hb]
    rw [retry_each_none]

theorem process_batch_fail_none (api : EmbeddingApi) (model : String) (now : Int)
    (hb : ∀ ts, api.batch_api ts = .error ()) (st : BatchState)
    (hc : st.cache = none) (b : Nat × List String) :
    process_batch api model now st b
      = { results := st.results ++ (enumFromIdx b.1 b.2).map
            (fun p => (p.1, retry_outcome api.single_api p.2)),
          cache_hits := st.cache_hits,
          cache_misses := st.cache_misses + b.2.length,
          total_tokens := st.total_tokens,
          cache := none } := by
  simp only [process_batch, hc, scan_cache_none,
    process_uncached_fail api model now hb, List.nil_append, List.map_map,
    enumFromIdx_length, Function.comp, Nat.add_zero]
  rfl

theorem enumFromIdx_take_drop (l : List String) :
    ∀ (n start : Nat),
      enumFromIdx start l
        = enumFromIdx start (l.take n) ++ enumFromIdx (start + n) (l.drop n) := by
  induction l with
  | nil => intro n start; simp [enumFromIdx]
  | cons t rest ih =>
    intro n start
    cases n with
    | zero => simp [enumFromIdx]
    | succ m =>
      simp only [List.take_succ_cons, List.drop_succ_cons, enumFromIdx, List.cons_append]
      rw [ih m (start + 1)]
      have harith : start + 1 + m = start + (m + 1) := by omega
      rw [harith]

theorem foldl_process_batch_fail (api : EmbeddingApi) (model : String) (now : Int)
    (hb : ∀ ts, api.batch_api ts = .error ()) :
    ∀ (fuel : Nat) (l : List String) (start : Nat) (st : BatchState),
      l.length ≤ fuel → st.cache = none →
      ((make_batches_go BATCH_SIZE fuel start l).foldl
          (process_batch api model now) st).results
        = st.results ++ (enumFromIdx start l).map
            (fun p => (p.1, retry_outcome api.single_api p.2)) := by
  intro fuel
  induction fuel with
  | zero =>
    intro l start st h hc
    cases l with
    | nil => simp [make_batches_go, enumFromIdx]
    | cons t rest => simp at h
  | succ fuel ih =>
    intro l start st h hc
    cases l with
    | nil => simp [make_batches_go, enumFromIdx]
    | cons t rest =>
      have hB : 1 ≤ BATCH_SIZE := by decide
      have hlen : ((t :: rest).drop BATCH_SIZE).length ≤ fuel := by
        simp only [List.length_drop, List.length_cons]
        simp only [List.length_cons] at h
        omega
      simp only [make_batches_go, List.foldl_cons]
      rw [process_batch_fail_none api model now hb st hc (start, (t :: rest).take BATCH_SIZE)]
      rw [ih ((t :: rest).drop BATCH_SIZE) (start + BATCH_SIZE) _ hlen rfl]
      rw [enumFromIdx_take_drop (t :: rest) BATCH_SIZE start, List.map_append,
        List.append_assoc]

/-! ## Claim C9 -/

/-- C9: for every input list, `embed_batch` returns exactly one
embedding per input position, and its cache statistics count every input
exactly once as a hit or a miss: `hits + misses = len(texts)`.  (The
code validates that a successful batch response carries exactly one
vector per requested input, and every other path — cache hit, batch
success, per-item retry, zero-vector substitution — produces exactly one
vector per item.) -/
theorem C9_embed_batch_length_invariant (api : EmbeddingApi) (model : String)
    (cache : Option CacheState) (now : Int) (texts : List String) :
    (embed_batch api model cache now texts).embeddings.length = texts.length
      ∧ (embed_batch api model cache now texts).hits
          + (embed_batch api model cache now texts).misses = texts.length := by
  cases texts with
  | nil => exact ⟨rfl, rfl⟩
  | cons t rest =>
    have hsum := make_batches_go_sum BATCH_SIZE (by decide) (t :: rest).length
      (t :: rest) 0 (le_refl _)
    have hfold := foldl_process_batch_spec api model now
      (make_batches BATCH_SIZE (t :: rest))
      { results := [], cache_hits := 0, cache_misses := 0, total_tokens := 0,
        cache := cache }
    simp only [embed_batch, List.length_map, length_sortByIdx]
    simp only [make_batches] at hfold ⊢
    refine ⟨?_, ?_⟩
    · rw [hfold.1]
      simpa using hsum
    · rw [hfold.2]
      simpa using hsum

/-! ## Claim C6 -/

/-- C6: when the batch remote call fails, each uncached item is retried
individually; an item whose retry also fails (including blank input,
which `embed_single` rejects) yields the 1024-dimensional zero vector —
the expected dimensionality of the configured `baai/bge-m3` model —
instead of raising, and it does not abort the batch: the result is still
one vector per input, reassembled in the original input order (the
position-by-position `map` below).  Stated over a disabled cache so that
every item takes the failing-batch path. -/
theorem C6_batch_failure_zero_vector_order
    (single : String → Except Unit (List ℚ)) (model : String) (now : Int)
    (texts : List String) :
    (embed_batch { batch_api := fun _ => .error (), single_api := single }
        model none now texts).embeddings = texts.map (retry_outcome single)
      ∧ zero_vector = List.replicate 1024 (0 : ℚ) := by
  constructor
  · cases texts with
    | nil => rfl
    | cons t rest =>
      have hb : ∀ ts, ({ batch_api := fun _ => .error (), single_api := single }
          : EmbeddingApi).batch_api ts = .error () := fun _ => rfl
      have hres := foldl_process_batch_fail _ model now hb (t :: rest).length
        (t :: rest) 0
        { results := [], cache_hits := 0, cache_misses := 0, total_tokens := 0,
          cache := none } (le_refl _) rfl
      simp only [embed_batch, make_batches]
      rw [hres]
      simp only [List.nil_append]
      rw [sortByIdx_of_pairwise _
        (pairwise_enumFromIdx_map (retry_outcome single) (t :: rest) 0)]
      exact map_snd_enumFromIdx_map (retry_outcome single) (t :: rest) 0
  · rfl

/-! ## Claim C5 -/

/-- C5 (counterexample): with an initially empty enabled cache and a
remote endpoint that always succeeds, `embed_batch(["a", "a", "b"])`
reports 3 cache misses — not the 2 the claim states. -/
theorem C5_two_misses_refuted :
    (embed_batch constant_api EMBEDDING_MODEL
        (some (MemoryCache.init CACHE_MAX_SIZE CACHE_TTL_SECONDS)) 0
        ["a", "a", "b"]).misses = 3
      ∧ ¬ ((embed_batch constant_api EMBEDDING_MODEL
        (some (MemoryCache.init CACHE_MAX_SIZE CACHE_TTL_SECONDS)) 0
        ["a", "a", "b"]).misses = 2) := by
  constructor
  · rfl
  · decide

/-- C5 (amended): `embed_batch(["a", "a", "b"])` on an initially empty
enabled cache, with the remote batch call succeeding, reports 3 misses
and 0 hits — one miss per input occurrence.  All three texts fall into
one batch (`BATCH_SIZE = 50`), and within a batch the cache pass for
every item runs before any vector is written back, so the second
occurrence of "a" is also counted as a miss: there is no intra-call
dedup inside a batch.  The three vectors are returned in input order. -/
theorem C5_embed_batch_duplicate_counts_misses (api : EmbeddingApi)
    (v1 v2 v3 : List ℚ) (tok : Nat) (now : Int)
    (h : api.batch_api ["a", "a", "b"] = .ok ([v1, v2, v3], tok)) :
    (embed_batch api EMBEDDING_MODEL
        (some (MemoryCache.init CACHE_MAX_SIZE CACHE_TTL_SECONDS)) now
        ["a", "a", "b"]).misses = 3
      ∧ (embed_batch api EMBEDDING_MODEL
        (some (MemoryCache.init CACHE_MAX_SIZE CACHE_TTL_SECONDS)) now
        ["a", "a", "b"]).hits = 0
      ∧ (embed_batch api EMBEDDING_MODEL
        (some (MemoryCache.init CACHE_MAX_SIZE CACHE_TTL_SECONDS)) now
        ["a", "a", "b"]).embeddings = [v1, v2, v3] := by
  have hscan : scan_cache EMBEDDING_MODEL now [(0, "a"), (1, "a"), (2, "b")]
      (some (MemoryCache.init CACHE_MAX_SIZE CACHE_TTL_SECONDS))
      = ([], [("a", 0), ("a", 1), ("b", 2)], 0, 3,
         some (MemoryCache.init CACHE_MAX_SIZE CACHE_TTL_SECONDS)) := rfl
  have hmb : make_batches BATCH_SIZE ["a", "a", "b"] = [(0, ["a", "a", "b"])] := rfl
  have hpairs : enumFromIdx 0 ["a", "a", "b"] = [(0, "a"), (1, "a"), (2, "b")] := rfl
  have hfst : (([("a", 0), ("a", 1), ("b", 2)] : List (String × Nat)).map Prod.fst)
      = ["a", "a", "b"] := rfl
  simp only [embed_batch, hmb, List.foldl_cons, List.foldl_nil, process_batch,
    hpairs, hscan, process_uncached, hfst, h]
  refine ⟨trivial, trivial, ?_⟩
  rfl

/-- Witness for C5 (amended) with the concrete always-succeeding
endpoint. -/
theorem C5_embed_batch_duplicate_counts_misses_witness :
    (embed_batch constant_api EMBEDDING_MODEL
        (some (MemoryCache.init CACHE_MAX_SIZE CACHE_TTL_SECONDS)) 5
        ["a", "a", "b"]).misses = 3
      ∧ (embed_batch constant_api EMBEDDING_MODEL
        (some (MemoryCache.init CACHE_MAX_SIZE CACHE_TTL_SECONDS)) 5
        ["a", "a", "b"]).hits = 0
      ∧ (embed_batch constant_api EMBEDDING_MODEL
        (some (MemoryCache.init CACHE_MAX_SIZE CACHE_TTL_SECONDS)) 5
        ["a", "a", "b"]).embeddings = [[1], [1], [1]] :=
  C5_embed_batch_duplicate_counts_misses constant_api [1] [1] [1] 7 5 rfl

/-- Witness for C8 (amended) with concrete LLM oracles. -/
theorem C8_keyword_classification_witness :
    (rewrite (fun q => .ok q) (fun _ => .ok "1. 什么是X\n2. 什么是Y")
        (fun _ => .ok "X 定义 概念") true "X和Y，有什么区别？").query_type
        = "decomposition"
      ∧ (rewrite (fun q => .ok q) (fun _ => .ok "1. 什么是X\n2. 什么是Y")
        (fun _ => .ok "X 定义 概念") true "What is X?").query_type
        = "expansion" :=
  C8_keyword_classification (fun q => .ok q)
    (fun _ => .ok "1. 什么是X\n2. 什么是Y") (fun _ => .ok "X 定义 概念")
    rfl rfl "1. 什么是X\n2. 什么是Y" rfl "X 定义 概念" rfl

end RagService
